import Mathlib

/-!
Verification of the pykeen hyperparameter random-search loop and the triples
factory layer, as a shallow embedding in Lean 4.

The embedding follows the two source files
`src/poem/instance_creation_factories/triples_factory.py` and
`src/hyper_parameter_optimizer/random_search_optimizer.py`.  External
collaborators that live outside the provided slice (triple loading and
label-to-id mapping, model construction, training, metric computation, the
string constants module) are modelled as explicit parameters or as opaque
inputs, so every theorem quantifies over them where the source defers to them.
-/

set_option autoImplicit false

namespace Pykeen

/-! ## Triples factory (triples_factory.py) -/

/-- A row of the mapped-triples integer array: (head id, relation id, tail id). -/
abbrev MappedTriple := Nat × Nat × Nat

/-- Reversal of one row, as numpy flip does along the last axis of a width-3 array. -/
def reverseTriple : MappedTriple → MappedTriple
  | (h, r, t) => (t, r, h)

/-- Model of numpy flip applied with no axis argument to an (n, 3) array: every
axis is reversed, so both the row order and each individual row are reversed. -/
def npFlip (rows : List MappedTriple) : List MappedTriple :=
  (rows.map reverseTriple).reverse

/-- Adding the relation offset to the middle column of one row, as the slice
assignment on column 1 does in the source. -/
def offsetRelation (n : Nat) : MappedTriple → MappedTriple
  | (h, r, t) => (h, r + n, t)

/-- The fields of a TriplesFactory object after construction. -/
structure TriplesFactory where
  entity_to_id : List (String × Nat)
  relation_to_id : List (String × Nat)
  mapped_triples : List MappedTriple
  all_entities : List Nat
  num_entities : Nat
  num_relations : Nat
  create_inverse_triples : Bool
deriving Repr, DecidableEq

/-- Embedding of the method creating inverse triples: flip a copy of the mapped
triples (numpy flip with no axis reverses rows and columns), add the current
relation count to the middle column, append, then double the relation count. -/
def TriplesFactory.createInverseTriplesStep (tf : TriplesFactory) : TriplesFactory :=
  let inverse_triples := (npFlip tf.mapped_triples).map (offsetRelation tf.num_relations)
  { tf with
    mapped_triples := tf.mapped_triples ++ inverse_triples
    num_relations := tf.num_relations * 2 }

/-- Embedding of TriplesFactory init.  The external preprocessing helpers
(load_triples, create_entity_and_relation_mappings, map_triples_elements_to_ids)
are outside the provided sources, so their deterministic outputs are taken as
inputs here; the body performs the derived-field assignments and then, when the
flag is set, runs the inverse augmentation exactly once. -/
def TriplesFactory.init (entityToId relationToId : List (String × Nat))
    (mappedTriples : List MappedTriple) (createInverseTriples : Bool) : TriplesFactory :=
  let tf : TriplesFactory := {
    entity_to_id := entityToId
    relation_to_id := relationToId
    mapped_triples := mappedTriples
    all_entities := entityToId.map Prod.snd
    num_entities := entityToId.length
    num_relations := relationToId.length
    create_inverse_triples := createInverseTriples }
  if createInverseTriples then tf.createInverseTriplesStep else tf

/-- C2: with inverse augmentation enabled over a mapped-triples set whose
relation mapping has N entries, every original triple (h, r, t) yields the
presence of (t, r + N, h) in the augmented array, the augmentation appends
exactly one inverse row per original row (so the array doubles in length), the
offset is the pre-doubling relation count N, and the relation count afterwards
equals 2 N. -/
theorem inverse_augmentation_complete (e r : List (String × Nat)) (m : List MappedTriple) :
    (∀ h rel t, (h, rel, t) ∈ m →
      (t, rel + r.length, h) ∈ (TriplesFactory.init e r m true).mapped_triples) ∧
    (TriplesFactory.init e r m true).mapped_triples.length = 2 * m.length ∧
    (TriplesFactory.init e r m true).num_relations = 2 * r.length := by
  refine ⟨?_, ?_, ?_⟩
  · intro h rel t hmem
    simp only [TriplesFactory.init, TriplesFactory.createInverseTriplesStep, npFlip,
      if_pos, List.mem_append, List.mem_map, List.mem_reverse]
    right
    exact ⟨(t, rel, h), ⟨(h, rel, t), hmem, rfl⟩, rfl⟩
  · simp [TriplesFactory.init, TriplesFactory.createInverseTriplesStep, npFlip]
    omega
  · simp [TriplesFactory.init, TriplesFactory.createInverseTriplesStep]
    omega

/-- Witness for C2 at a concrete input: the dataset of section 8 of the spec,
entities a, b, c with ids 0, 1, 2 and one relation with id 0. -/
theorem inverse_augmentation_complete_witness :
    ((0, 0, 1) : MappedTriple) ∈ [((0, 0, 1) : MappedTriple), (1, 0, 2)] ∧
    ((1, 1, 0) : MappedTriple) ∈
      (TriplesFactory.init [("a", 0), ("b", 1), ("c", 2)] [("knows", 0)]
        [(0, 0, 1), (1, 0, 2)] true).mapped_triples :=
  ⟨by decide,
   (inverse_augmentation_complete [("a", 0), ("b", 1), ("c", 2)] [("knows", 0)]
      [(0, 0, 1), (1, 0, 2)]).1 0 0 1 (by decide)⟩

/-- C3 counterexample: on the two-row input [(0,0,1), (1,0,2)] with one
relation, the augmented array is [(0,0,1), (1,0,2), (2,1,1), (1,1,0)]: its
third row (2,1,1) is the reversed-and-offset version of the SECOND original
row, not of the first one (1,1,0) as the claim states, because numpy flip with
no axis also reverses the row order. -/
theorem inverse_two_rows_counterexample :
    (TriplesFactory.init [("a", 0), ("b", 1), ("c", 2)] [("knows", 0)]
      [(0, 0, 1), (1, 0, 2)] true).mapped_triples =
        [(0, 0, 1), (1, 0, 2), (2, 1, 1), (1, 1, 0)] ∧
    (TriplesFactory.init [("a", 0), ("b", 1), ("c", 2)] [("knows", 0)]
      [(0, 0, 1), (1, 0, 2)] true).mapped_triples.getD 2 (0, 0, 0) ≠
        offsetRelation 1 (reverseTriple (0, 0, 1)) := by
  constructor
  · decide
  · decide

/-- C3 (amended): on a two-row input with a one-entry relation mapping, the
augmented array has 4 rows, the relation-id space has size 2, and the inverse
rows appear in REVERSED order: row 3 is the reversed-and-offset version of
original row 2, and row 4 of original row 1. -/
theorem inverse_two_rows (e r : List (String × Nat)) (a b : MappedTriple)
    (hr : r.length = 1) :
    (TriplesFactory.init e r [a, b] true).mapped_triples =
      [a, b, offsetRelation 1 (reverseTriple b), offsetRelation 1 (reverseTriple a)] ∧
    (TriplesFactory.init e r [a, b] true).num_relations = 2 := by
  constructor
  · simp [TriplesFactory.init, TriplesFactory.createInverseTriplesStep, npFlip, hr]
  · simp [TriplesFactory.init, TriplesFactory.createInverseTriplesStep, hr]

/-- Witness for the amended C3 at the concrete two-row dataset. -/
theorem inverse_two_rows_witness :
    ([("knows", 0)] : List (String × Nat)).length = 1 ∧
    (TriplesFactory.init [("a", 0), ("b", 1), ("c", 2)] [("knows", 0)]
      [(0, 0, 1), (1, 0, 2)] true).mapped_triples =
      [(0, 0, 1), (1, 0, 2), offsetRelation 1 (reverseTriple (1, 0, 2)),
        offsetRelation 1 (reverseTriple (0, 0, 1))] :=
  ⟨by decide,
   (inverse_two_rows [("a", 0), ("b", 1), ("c", 2)] [("knows", 0)]
      (0, 0, 1) (1, 0, 2) (by decide)).1⟩

/-- C10: inverse augmentation changes only the mapped-triples array and the
relation count; the entity mapping, relation mapping, entity count and
all-entities array of the factory built with the flag set equal those of the
factory built from the same data without it, since they are all assigned before
the augmentation runs. -/
theorem inverse_augmentation_frame (e r : List (String × Nat)) (m : List MappedTriple) :
    (TriplesFactory.init e r m true).entity_to_id =
      (TriplesFactory.init e r m false).entity_to_id ∧
    (TriplesFactory.init e r m true).relation_to_id =
      (TriplesFactory.init e r m false).relation_to_id ∧
    (TriplesFactory.init e r m true).num_entities =
      (TriplesFactory.init e r m false).num_entities ∧
    (TriplesFactory.init e r m true).all_entities =
      (TriplesFactory.init e r m false).all_entities := by
  refine ⟨rfl, rfl, rfl, rfl⟩

/-! ## Python values and ordered dictionaries

The optimizer manipulates OrderedDict objects mapping string constants to
heterogeneous values.  A dictionary is an association list with unique keys
kept in insertion order; setting an existing key replaces the value in place,
setting a new key appends it at the end, which is the OrderedDict behaviour
the source relies on. -/

/-- A scalar Python value: number, string or boolean. -/
inductive Scalar where
  | num : Int → Scalar
  | str : String → Scalar
  | bool : Bool → Scalar
deriving Repr, DecidableEq, Inhabited

/-- A Python value as the optimizer handles them: a scalar, or a list of
scalars (the candidate lists of the search space are lists of scalars). -/
inductive Val where
  | scalar : Scalar → Val
  | list : List Scalar → Val
deriving Repr, DecidableEq, Inhabited

/-- Shorthand for a numeric value. -/
def Val.num (n : Int) : Val := Val.scalar (Scalar.num n)

/-- Shorthand for a string value. -/
def Val.str (s : String) : Val := Val.scalar (Scalar.str s)

/-- Shorthand for a boolean value. -/
def Val.bool (b : Bool) : Val := Val.scalar (Scalar.bool b)

/-- An ordered dictionary with string keys. -/
abbrev Dict := List (String × Val)

/-- Setting a key: replace in place when the key is present, append otherwise. -/
def odSet : Dict → String → Val → Dict
  | [], k, v => [(k, v)]
  | p :: ps, k, v => if p.1 = k then (k, v) :: ps else p :: odSet ps k v

/-- The dict.update method: set every entry of the second dictionary in order. -/
def odUpdate (d e : Dict) : Dict :=
  e.foldl (fun acc p => odSet acc p.1 p.2) d

/-- Key lookup. -/
def dget : Dict → String → Option Val
  | [], _ => none
  | p :: ps, k => if p.1 = k then some p.2 else dget ps k

/-- Reading a candidate list stored under a key. -/
def getList (d : Dict) (k : String) : List Scalar :=
  match dget d k with
  | some (Val.list l) => l
  | _ => []

/-- Reading a natural number stored under a key. -/
def getNat (d : Dict) (k : String) : Nat :=
  match dget d k with
  | some (Val.scalar (Scalar.num n)) => n.toNat
  | _ => 0

/-- Reading the raw value stored under a key, defaulting like a benign access. -/
def getVal (d : Dict) (k : String) : Val :=
  (dget d k).getD (Val.num 0)

theorem dget_odSet_self (d : Dict) (k : String) (v : Val) :
    dget (odSet d k v) k = some v := by
  induction d with
  | nil => simp [odSet, dget]
  | cons p ps ih =>
    by_cases h : p.1 = k
    · simp [odSet, dget, h]
    · simp [odSet, dget, h, ih]

theorem dget_odSet_ne (d : Dict) (k k2 : String) (v : Val) (h : k ≠ k2) :
    dget (odSet d k v) k2 = dget d k2 := by
  induction d with
  | nil => simp [odSet, dget, h]
  | cons p ps ih =>
    by_cases hp : p.1 = k
    · subst hp
      simp [odSet, dget, h]
    · simp only [odSet, if_neg hp, dget]
      by_cases hp2 : p.1 = k2 <;> simp [hp2, ih]

/-! ## The string constants module (external to the provided sources)

The utilities constants module is not part of the provided slice; the claims
only need that the constants are pairwise distinct tokens, so each is modelled
as a distinct string. -/

def LEARNING_RATE : String := "learning_rate"
def MARGIN_LOSS : String := "margin_loss"
def EMBEDDING_DIM : String := "embedding_dim"
def BATCH_SIZE : String := "batch_size"
def NUM_EPOCHS : String := "num_epochs"
def KG_EMBEDDING_MODEL : String := "kg_embedding_model"
def NUM_ENTITIES : String := "num_entities"
def NUM_RELATIONS : String := "num_relations"
def SEED : String := "seed"
def NUM_OF_MAX_HPO_ITERS : String := "maximum_number_of_hpo_iters"
def NORMALIZATION_OF_ENTITIES : String := "normalization_of_entities"
def MEAN_RANK : String := "mean_rank"
def HITS_AT_K : String := "hits_at_k"
def TRANS_E : String := "TransE"
def TRANS_H : String := "TransH"
def TRANS_D : String := "TransD"
def TRANS_R : String := "TransR"
def CONV_E : String := "ConvE"
def CONV_E_HEIGHT : String := "ConvE_height"
def CONV_E_WIDTH : String := "ConvE_width"
def CONV_E_INPUT_CHANNELS : String := "ConvE_input_channels"
def CONV_E_OUTPUT_CHANNELS : String := "ConvE_output_channels"
def CONV_E_KERNEL_HEIGHT : String := "ConvE_kernel_heights"
def CONV_E_KERNEL_WIDTH : String := "ConvE_kernel_widths"
def CONV_E_INPUT_DROPOUT : String := "conv_e_input_dropout"
def CONV_E_OUTPUT_DROPOUT : String := "conv_e_output_dropout"
def CONV_E_FEATURE_MAP_DROPOUT : String := "conv_e_feature_map_dropout"

/-! ## numpy argmax

Modelled from its documented semantics: the first index at which the maximum
of the array is attained; on an empty array numpy raises a ValueError. -/

/-- Folding max over a list from an initial accumulator, as a plain recursion. -/
def listFoldMax : List Int → Int → Int
  | [], a => a
  | x :: xs, a => listFoldMax xs (max a x)

/-- First index holding a given value. -/
def firstIdxEq : List Int → Int → Option Nat
  | [], _ => none
  | x :: xs, m => if x = m then some 0 else (firstIdxEq xs m).map (· + 1)

/-- numpy argmax: first index of the maximum, none on the empty array. -/
def argmaxIdx : List Int → Option Nat
  | [] => none
  | x :: xs => firstIdxEq (x :: xs) (listFoldMax xs x)

theorem le_listFoldMax_init (l : List Int) : ∀ a : Int, a ≤ listFoldMax l a := by
  induction l with
  | nil => intro a; simp [listFoldMax]
  | cons x xs ih =>
    intro a
    exact le_trans (le_max_left a x) (ih (max a x))

theorem le_listFoldMax_mem (l : List Int) : ∀ (a v : Int), v ∈ l → v ≤ listFoldMax l a := by
  induction l with
  | nil => intro a v hv; simp at hv
  | cons x xs ih =>
    intro a v hv
    rcases List.mem_cons.mp hv with h | h
    · subst h
      exact le_trans (le_max_right a v) (le_listFoldMax_init xs (max a v))
    · exact ih (max a x) v h

theorem listFoldMax_cases (l : List Int) : ∀ a : Int, listFoldMax l a = a ∨ listFoldMax l a ∈ l := by
  induction l with
  | nil => intro a; left; rfl
  | cons x xs ih =>
    intro a
    rcases ih (max a x) with h | h
    · rcases max_choice a x with hm | hm
      · left; rw [listFoldMax, h, hm]
      · right; rw [listFoldMax, h, hm]; exact List.mem_cons_self x xs
    · right; exact List.mem_cons_of_mem x h

theorem firstIdxEq_of_mem (l : List Int) (v : Int) (h : v ∈ l) :
    ∃ i, firstIdxEq l v = some i := by
  induction l with
  | nil => simp at h
  | cons x xs ih =>
    by_cases hx : x = v
    · exact ⟨0, by simp [firstIdxEq, hx]⟩
    · rcases List.mem_cons.mp h with h1 | h1
      · exact absurd h1.symm hx
      · obtain ⟨i, hi⟩ := ih h1
        exact ⟨i + 1, by simp [firstIdxEq, hx, hi]⟩

theorem firstIdxEq_spec (l : List Int) (v : Int) :
    ∀ i, firstIdxEq l v = some i →
      i < l.length ∧ l.getD i 0 = v ∧ ∀ j, j < i → l.getD j 0 ≠ v := by
  induction l with
  | nil => intro i h; simp [firstIdxEq] at h
  | cons x xs ih =>
    intro i h
    by_cases hx : x = v
    · simp [firstIdxEq, hx] at h
      subst h
      exact ⟨by simp, by simpa using hx, fun j hj => absurd hj (Nat.not_lt_zero j)⟩
    · simp [firstIdxEq, hx] at h
      obtain ⟨i0, hi0, hplus⟩ := h
      obtain ⟨hlt, hval, hne⟩ := ih i0 hi0
      subst hplus
      refine ⟨by simpa using Nat.succ_lt_succ hlt, by simpa using hval, ?_⟩
      intro j hj
      cases j with
      | zero => simpa using hx
      | succ j0 => simpa using hne j0 (Nat.lt_of_succ_lt_succ hj)

theorem argmaxIdx_isSome (l : List Int) (h : l ≠ []) : ∃ i, argmaxIdx l = some i := by
  cases l with
  | nil => exact absurd rfl h
  | cons x xs =>
    have hmem : listFoldMax xs x ∈ x :: xs := by
      rcases listFoldMax_cases xs x with h1 | h1
      · rw [h1]; exact List.mem_cons_self x xs
      · exact List.mem_cons_of_mem x h1
    obtain ⟨i, hi⟩ := firstIdxEq_of_mem (x :: xs) (listFoldMax xs x) hmem
    exact ⟨i, by simpa [argmaxIdx] using hi⟩

theorem argmaxIdx_spec (l : List Int) (i : Nat) (h : argmaxIdx l = some i) :
    i < l.length ∧ (∀ j, j < l.length → l.getD j 0 ≤ l.getD i 0) ∧
      ∀ j, j < i → l.getD j 0 < l.getD i 0 := by
  cases l with
  | nil => simp [argmaxIdx] at h
  | cons x xs =>
    have h2 := firstIdxEq_spec (x :: xs) (listFoldMax xs x) i (by simpa [argmaxIdx] using h)
    obtain ⟨hlt, hval, hne⟩ := h2
    have hle : ∀ j, j < (x :: xs).length → (x :: xs).getD j 0 ≤ listFoldMax xs x := by
      intro j hj
      have hm : (x :: xs).getD j 0 ∈ x :: xs := by
        rw [List.getD_eq_getElem (x :: xs) 0 hj]
        exact List.getElem_mem hj
      rcases List.mem_cons.mp hm with h1 | h1
      · rw [h1]; exact le_listFoldMax_init xs x
      · exact le_listFoldMax_mem xs x _ h1
    refine ⟨hlt, ?_, ?_⟩
    · intro j hj
      rw [hval]
      exact hle j hj
    · intro j hj
      have hjlen : j < (x :: xs).length := Nat.lt_trans hj hlt
      have := hle j hjlen
      rw [hval]
      exact lt_of_le_of_ne this (hne j hj)

/-! ## The random search optimizer (random_search_optimizer.py)

The Python random module is a process-wide source of draws; it is modelled as
a stream of naturals together with a position counter threaded through every
sampling call in program order.  The numpy generator is seeded at entry but no
later statement of the optimizer reads it, so it leaves no trace in the model. -/

/-- Model of random.choice on a candidate list: the draw r taken from the
process-wide stream selects the element at index r modulo the length. -/
def choice (l : List Scalar) (r : Nat) : Scalar :=
  l.getD (r % l.length) (Scalar.num 0)

/-- Embedding of the ConvE-specific sampler: one uniform draw per option,
consumed in source order from the shared stream. -/
def sampleConvESpecificParams (hp : Dict) (stream : Nat → Nat) (pos : Nat) : Dict × Nat :=
  [CONV_E_HEIGHT, CONV_E_WIDTH, CONV_E_INPUT_CHANNELS, CONV_E_OUTPUT_CHANNELS,
    CONV_E_KERNEL_HEIGHT, CONV_E_KERNEL_WIDTH, CONV_E_INPUT_DROPOUT,
    CONV_E_OUTPUT_DROPOUT, CONV_E_FEATURE_MAP_DROPOUT].foldl
    (fun st k => (odSet st.1 k (Val.scalar (choice (getList hp k) (stream st.2))), st.2 + 1))
    ([], pos)

/-- Embedding of the TransX-specific sampler, exactly as the source reads: the
margin option is drawn twice in a row (the second draw overwrites the first,
both draws are consumed from the stream), and the normalization option is
assigned the RAW value stored in the search space under its key, with no
random.choice call around it. -/
def sampleTransXSpecificParams (hp : Dict) (stream : Nat → Nat) (pos : Nat) : Dict × Nat :=
  let d := odSet [] MARGIN_LOSS (Val.scalar (choice (getList hp MARGIN_LOSS) (stream pos)))
  let d := odSet d MARGIN_LOSS (Val.scalar (choice (getList hp MARGIN_LOSS) (stream (pos + 1))))
  let d := odSet d NORMALIZATION_OF_ENTITIES (getVal hp NORMALIZATION_OF_ENTITIES)
  (d, pos + 2)

/-- Which family-specific sampler got assigned. -/
inductive SamplerTag where
  | transX : SamplerTag
  | convE : SamplerTag
deriving Repr, DecidableEq

/-- The dispatch of the source: a sampling function is assigned only when the
family is one of the four translation families or ConvE; any other family name
leaves the local function variable unassigned, encoded as none. -/
def selectSampler (embeddingModel : Val) : Option SamplerTag :=
  if embeddingModel = Val.str TRANS_E ∨ embeddingModel = Val.str TRANS_H ∨
      embeddingModel = Val.str TRANS_D ∨ embeddingModel = Val.str TRANS_R then
    some SamplerTag.transX
  else if embeddingModel = Val.str CONV_E then some SamplerTag.convE
  else none

/-- Running the assigned sampler. -/
def runSampler : SamplerTag → Dict → (Nat → Nat) → Nat → Dict × Nat
  | SamplerTag.transX => sampleTransXSpecificParams
  | SamplerTag.convE => sampleConvESpecificParams

/-- The Python error kinds this code path can surface, plus the configuration
error named by the design taxonomy (shown to never be raised here). -/
inductive PyError where
  | unboundLocalError : String → PyError
  | valueError : String → PyError
  | configurationError : String → PyError
deriving Repr, DecidableEq

/-- External collaborators of the search loop, outside the provided sources:
model construction, training, and the three metric computations.  The test
triples, the device and the other fixed arguments are captured inside these
functions since they do not vary across trials; metric values are carried as
integers, which preserves their ordering behaviour under argmax. -/
structure Oracles (M : Type) where
  get_kg_embedding_model : Dict → M
  train_model : M → Val → Val → Val → Nat → M × Val
  compute_mean_rank_and_hits_at_k : M → Nat → Int × Int
  compute_mean_rank : M → Int
  compute_hits_at_k : M → Nat → Int

/-- The fixed inputs of one optimize_hyperparams call. -/
structure RunInputs (M : Type) where
  oracles : Oracles M
  entity_to_id : List (String × Nat)
  rel_to_id : List (String × Nat)
  hyperparams_dict : Dict
  eval_metrics : List String
  k_for_hits : Nat
  stream : Nat → Nat
  seed : Nat

/-- The literal membership test on the requested metric names. -/
def is_mean_rank_selected {M : Type} (ri : RunInputs M) : Bool :=
  ri.eval_metrics.contains "mean_rank"

/-- The literal membership test on the requested metric names. -/
def is_hits_at_k_selected {M : Type} (ri : RunInputs M) : Bool :=
  ri.eval_metrics.contains "hits_at_k"

/-- The mutable state of one run.  config and evalSummary are the two
OrderedDict objects created once before the loop and mutated in place across
all trials; the Python per-trial lists store references, so for those two the
snapshot lists record the contents the shared object had at append time, and
the observation functions below resolve what the stored references show at any
later moment. -/
structure LoopState (M : Type) where
  config : Dict
  evalSummary : Dict
  trained_models : List M
  eval_results : List Int
  entity_to_ids : List (List (String × Nat))
  rel_to_ids : List (List (String × Nat))
  epoch_losses : List Val
  pos : Nat
  modelsParamsSnap : List Dict
  evalSummariesSnap : List Dict

/-- What the models_params Python list shows when read: every stored element is
a reference to the one shared config object, so each entry resolves to the
current contents of that object. -/
def observedModelsParams {M : Type} (st : LoopState M) : List Dict :=
  st.modelsParamsSnap.map (fun _ => st.config)

/-- What the eval_summaries Python list shows when read, by the same aliasing. -/
def observedEvalSummaries {M : Type} (st : LoopState M) : List Dict :=
  st.evalSummariesSnap.map (fun _ => st.evalSummary)

/-- The general-parameter sampling at the top of each loop iteration: four
uniform draws for learning rate, embedding dimension, epochs and batch size,
then the dataset-derived entries and the seed, all written into the shared
config object. -/
def generalConfig {M : Type} (ri : RunInputs M) (st : LoopState M) : Dict :=
  let hp := ri.hyperparams_dict
  let c := odSet st.config LEARNING_RATE
    (Val.scalar (choice (getList hp LEARNING_RATE) (ri.stream st.pos)))
  let c := odSet c EMBEDDING_DIM
    (Val.scalar (choice (getList hp EMBEDDING_DIM) (ri.stream (st.pos + 1))))
  let c := odSet c NUM_EPOCHS
    (Val.scalar (choice (getList hp NUM_EPOCHS) (ri.stream (st.pos + 2))))
  let c := odSet c BATCH_SIZE
    (Val.scalar (choice (getList hp BATCH_SIZE) (ri.stream (st.pos + 3))))
  let c := odSet c NUM_ENTITIES (Val.num ri.entity_to_id.length)
  let c := odSet c NUM_RELATIONS (Val.num ri.rel_to_id.length)
  odSet c SEED (Val.num ri.seed)

/-- The full configuration of one trial: the family-specific sampler output
(general sampling consumed four draws, so it starts at pos + 4) merged into
the shared config by dict.update. -/
def trialConfig {M : Type} (ri : RunInputs M) (tag : SamplerTag) (st : LoopState M)
    (c0 : Dict) : Dict :=
  odUpdate c0 (runSampler tag ri.hyperparams_dict ri.stream (st.pos + 4)).1

/-- The stream position after one trial: the family-specific sampler finishes
the per-trial draws. -/
def trialPos {M : Type} (ri : RunInputs M) (tag : SamplerTag) (st : LoopState M) : Nat :=
  (runSampler tag ri.hyperparams_dict ri.stream (st.pos + 4)).2

/-- Building the model from the trial configuration and training it: the
trained model together with its epoch-loss history, with the learning rate,
epoch count and batch size read back from the configuration and the seed
argument forwarded. -/
def trialTrained {M : Type} (ri : RunInputs M) (tag : SamplerTag) (st : LoopState M)
    (c0 : Dict) : M × Val :=
  let c := trialConfig ri tag st c0
  ri.oracles.train_model (ri.oracles.get_kg_embedding_model c) (getVal c LEARNING_RATE)
    (getVal c NUM_EPOCHS) (getVal c BATCH_SIZE) ri.seed

/-- The evaluation block of one iteration: given the trained model and the
current contents of the shared summary object, the three metric branches
produce the new summary contents, the values appended to eval_results and the
entries appended to eval_summaries (both empty when no recognized metric was
requested). -/
def trialEval {M : Type} (ri : RunInputs M) (m : M) (ev0 : Dict) : Dict × List Int × List Dict :=
  if is_mean_rank_selected ri && is_hits_at_k_selected ri then
    let mh := ri.oracles.compute_mean_rank_and_hits_at_k m ri.k_for_hits
    let ev := odSet (odSet ev0 MEAN_RANK (Val.num mh.1)) HITS_AT_K (Val.num mh.2)
    (ev, [mh.1], [ev])
  else if is_mean_rank_selected ri && !is_hits_at_k_selected ri then
    let mr := ri.oracles.compute_mean_rank m
    let ev := odSet ev0 MEAN_RANK (Val.num mr)
    (ev, [mr], [ev])
  else if is_hits_at_k_selected ri && !is_mean_rank_selected ri then
    let hk := ri.oracles.compute_hits_at_k m ri.k_for_hits
    let ev := odSet ev0 HITS_AT_K (Val.num hk)
    (ev, [hk], [ev])
  else (ev0, [], [])

/-- The remainder of one loop iteration once a sampler is assigned: merge the
sampler output into the shared config, build and train the model, evaluate
according to which metrics were requested (mutating the shared summary), and
append to the per-trial lists. -/
def trialStep {M : Type} (ri : RunInputs M) (tag : SamplerTag) (st : LoopState M)
    (c0 : Dict) : LoopState M :=
  let c := trialConfig ri tag st c0
  let tr := trialTrained ri tag st c0
  let evalRes := trialEval ri tr.1 st.evalSummary
  { config := c
    evalSummary := evalRes.1
    trained_models := st.trained_models ++ [tr.1]
    eval_results := st.eval_results ++ evalRes.2.1
    entity_to_ids := st.entity_to_ids ++ [ri.entity_to_id]
    rel_to_ids := st.rel_to_ids ++ [ri.rel_to_id]
    epoch_losses := st.epoch_losses ++ [tr.2]
    pos := trialPos ri tag st
    modelsParamsSnap := st.modelsParamsSnap ++ [c]
    evalSummariesSnap := st.evalSummariesSnap ++ evalRes.2.2 }

/-- One full loop iteration: the general parameters are sampled into the shared
config first; invoking the never-assigned sampling function then raises the
unbound-local error, otherwise the trial proceeds. -/
def runTrial {M : Type} (ri : RunInputs M) (st : LoopState M) :
    Except PyError (LoopState M) :=
  let c := generalConfig ri st
  match selectSampler (getVal ri.hyperparams_dict KG_EMBEDDING_MODEL) with
  | none => Except.error (PyError.unboundLocalError "param_sampling_fct")
  | some tag => Except.ok (trialStep ri tag st c)

/-- Running the loop for the given number of iterations. -/
def runTrials {M : Type} (ri : RunInputs M) : Nat → LoopState M → Except PyError (LoopState M)
  | 0, st => Except.ok st
  | Nat.succ n, st =>
    match runTrial ri st with
    | Except.error e => Except.error e
    | Except.ok st2 => runTrials ri n st2

/-- The state before the first iteration: the shared config holds only the
model-family entry, the shared summary is empty, all lists are empty and no
draw has been consumed. -/
def initialState {M : Type} (ri : RunInputs M) : LoopState M :=
  { config := [(KG_EMBEDDING_MODEL, getVal ri.hyperparams_dict KG_EMBEDDING_MODEL)]
    evalSummary := []
    trained_models := []
    eval_results := []
    entity_to_ids := []
    rel_to_ids := []
    epoch_losses := []
    pos := 0
    modelsParamsSnap := []
    evalSummariesSnap := [] }

/-- The trial budget read from the search space. -/
def maxIters {M : Type} (ri : RunInputs M) : Nat :=
  getNat ri.hyperparams_dict NUM_OF_MAX_HPO_ITERS

/-- The tuple the optimizer returns for the winning trial. -/
structure BestTrial (M : Type) where
  trained_model : M
  epoch_loss : Val
  entity_to_id : List (String × Nat)
  rel_to_id : List (String × Nat)
  eval_summary : Dict
  metric_label : String
  params : Dict
deriving Repr

/-- Embedding of optimize_hyperparams: run max_iters trials, take numpy argmax
of the results collection (ValueError on an empty one), and read every
parallel list at that index; the summary and params entries resolve the stored
references to the shared objects, and the metric label is the hardcoded
MEAN_RANK constant of the return statement. -/
def optimize_hyperparams {M : Type} [Inhabited M] (ri : RunInputs M) :
    Except PyError (BestTrial M) :=
  match runTrials ri (maxIters ri) (initialState ri) with
  | Except.error e => Except.error e
  | Except.ok st =>
    match argmaxIdx st.eval_results with
    | none => Except.error (PyError.valueError "attempt to get argmax of an empty sequence")
    | some idx =>
      Except.ok {
        trained_model := st.trained_models.getD idx default
        epoch_loss := st.epoch_losses.getD idx (Val.num 0)
        entity_to_id := st.entity_to_ids.getD idx []
        rel_to_id := st.rel_to_ids.getD idx []
        eval_summary := (observedEvalSummaries st).getD idx st.evalSummary
        metric_label := MEAN_RANK
        params := (observedModelsParams st).getD idx st.config }

/-! ## Loop invariants -/

/-- The value the loop appends to the results collection for a trained model,
exactly as the three evaluation branches compute it. -/
def appendedResult {M : Type} (ri : RunInputs M) (m : M) : Int :=
  if is_mean_rank_selected ri && is_hits_at_k_selected ri then
    (ri.oracles.compute_mean_rank_and_hits_at_k m ri.k_for_hits).1
  else if is_mean_rank_selected ri && !is_hits_at_k_selected ri then
    ri.oracles.compute_mean_rank m
  else ri.oracles.compute_hits_at_k m ri.k_for_hits

/-- The primary metric in the words of the spec: mean rank whenever mean rank
is among the requested metrics, hits-at-k otherwise. -/
def primaryMetric {M : Type} (ri : RunInputs M) (m : M) : Int :=
  if is_mean_rank_selected ri then ri.oracles.compute_mean_rank m
  else ri.oracles.compute_hits_at_k m ri.k_for_hits

/-- When the combined metric computation agrees with the two single ones (the
evaluator interface contract), the value the code appends is the primary
metric of the spec. -/
theorem appendedResult_eq_primary {M : Type} (ri : RunInputs M)
    (hjoint : ∀ (m : M) (kk : Nat), ri.oracles.compute_mean_rank_and_hits_at_k m kk =
      (ri.oracles.compute_mean_rank m, ri.oracles.compute_hits_at_k m kk)) (m : M) :
    appendedResult ri m = primaryMetric ri m := by
  cases hmr : is_mean_rank_selected ri <;> cases hh : is_hits_at_k_selected ri <;>
    simp [appendedResult, primaryMetric, hmr, hh, hjoint]

theorem getD_snoc_lt {α : Type} (l : List α) (x d : α) (i : Nat) (h : i < l.length) :
    (l ++ [x]).getD i d = l.getD i d :=
  List.getD_append l [x] d i h

theorem getD_snoc_eq {α : Type} (l : List α) (x d : α) :
    (l ++ [x]).getD l.length d = x := by
  rw [List.getD_append_right l [x] d l.length (le_refl _)]
  simp

theorem trialEval_selected {M : Type} (ri : RunInputs M) (m : M) (ev0 : Dict)
    (hsel : is_mean_rank_selected ri = true ∨ is_hits_at_k_selected ri = true) :
    (trialEval ri m ev0).2.1 = [appendedResult ri m] ∧
      (trialEval ri m ev0).2.2 = [(trialEval ri m ev0).1] := by
  cases hmr : is_mean_rank_selected ri <;> cases hh : is_hits_at_k_selected ri <;>
    simp_all [trialEval, appendedResult]

theorem trialEval_none {M : Type} (ri : RunInputs M) (m : M) (ev0 : Dict)
    (hmr : is_mean_rank_selected ri = false) (hh : is_hits_at_k_selected ri = false) :
    trialEval ri m ev0 = (ev0, [], []) := by
  simp [trialEval, hmr, hh]

/-- The relations between the parallel per-trial lists that every reachable
loop state satisfies: equal lengths, the appended result value for trial i is
the one computed from the model trained in trial i, and the stored mappings of
every trial are the fixed input mappings. -/
structure TrialListsInv {M : Type} [Inhabited M] (ri : RunInputs M) (st : LoopState M) : Prop where
  len_eval : st.eval_results.length = st.trained_models.length
  len_ent : st.entity_to_ids.length = st.trained_models.length
  len_rel : st.rel_to_ids.length = st.trained_models.length
  len_loss : st.epoch_losses.length = st.trained_models.length
  len_snap : st.modelsParamsSnap.length = st.trained_models.length
  len_esnap : st.evalSummariesSnap.length = st.trained_models.length
  eval_eq : ∀ i, i < st.eval_results.length →
    st.eval_results.getD i 0 = appendedResult ri (st.trained_models.getD i default)
  ent_eq : ∀ i, i < st.entity_to_ids.length → st.entity_to_ids.getD i [] = ri.entity_to_id
  rel_eq : ∀ i, i < st.rel_to_ids.length → st.rel_to_ids.getD i [] = ri.rel_to_id

theorem initialState_inv {M : Type} [Inhabited M] (ri : RunInputs M) :
    TrialListsInv ri (initialState ri) := by
  refine ⟨rfl, rfl, rfl, rfl, rfl, rfl, ?_, ?_, ?_⟩ <;> intro i hi <;> simp [initialState] at hi

theorem trialStep_inv {M : Type} [Inhabited M] (ri : RunInputs M) (tag : SamplerTag)
    (st : LoopState M) (c0 : Dict)
    (hsel : is_mean_rank_selected ri = true ∨ is_hits_at_k_selected ri = true)
    (hinv : TrialListsInv ri st) :
    TrialListsInv ri (trialStep ri tag st c0) ∧
      (trialStep ri tag st c0).trained_models.length = st.trained_models.length + 1 := by
  obtain ⟨hres, hsnap⟩ := trialEval_selected ri (trialTrained ri tag st c0).1 st.evalSummary hsel
  have hT : (trialStep ri tag st c0).trained_models =
      st.trained_models ++ [(trialTrained ri tag st c0).1] := rfl
  have hE : (trialStep ri tag st c0).eval_results =
      st.eval_results ++ (trialEval ri (trialTrained ri tag st c0).1 st.evalSummary).2.1 := rfl
  have hES : (trialStep ri tag st c0).evalSummariesSnap =
      st.evalSummariesSnap ++ (trialEval ri (trialTrained ri tag st c0).1 st.evalSummary).2.2 := rfl
  constructor
  · refine ⟨?_, ?_, ?_, ?_, ?_, ?_, ?_, ?_, ?_⟩
    · rw [hT, hE, hres]; simp [hinv.len_eval]
    · rw [hT]; show (st.entity_to_ids ++ [ri.entity_to_id]).length = _
      simp [hinv.len_ent]
    · rw [hT]; show (st.rel_to_ids ++ [ri.rel_to_id]).length = _
      simp [hinv.len_rel]
    · rw [hT]; show (st.epoch_losses ++ [(trialTrained ri tag st c0).2]).length = _
      simp [hinv.len_loss]
    · rw [hT]; show (st.modelsParamsSnap ++ [trialConfig ri tag st c0]).length = _
      simp [hinv.len_snap]
    · rw [hT, hES, hsnap]; simp [hinv.len_esnap]
    · intro i hi
      rw [hE, hres] at hi ⊢
      rw [hT]
      simp only [List.length_append, List.length_singleton] at hi
      rcases Nat.lt_or_ge i st.eval_results.length with h1 | h1
      · rw [getD_snoc_lt _ _ _ _ h1, getD_snoc_lt _ _ _ _ (hinv.len_eval ▸ h1)]
        exact hinv.eval_eq i h1
      · have hieq : i = st.eval_results.length := by omega
        subst hieq
        rw [getD_snoc_eq]
        rw [hinv.len_eval, getD_snoc_eq]
    · intro i hi
      show (st.entity_to_ids ++ [ri.entity_to_id]).getD i [] = ri.entity_to_id
      have hi2 : i < (st.entity_to_ids ++ [ri.entity_to_id]).length := hi
      simp only [List.length_append, List.length_singleton] at hi2
      rcases Nat.lt_or_ge i st.entity_to_ids.length with h1 | h1
      · rw [getD_snoc_lt _ _ _ _ h1]; exact hinv.ent_eq i h1
      · have hieq : i = st.entity_to_ids.length := by omega
        subst hieq
        rw [getD_snoc_eq]
    · intro i hi
      show (st.rel_to_ids ++ [ri.rel_to_id]).getD i [] = ri.rel_to_id
      have hi2 : i < (st.rel_to_ids ++ [ri.rel_to_id]).length := hi
      simp only [List.length_append, List.length_singleton] at hi2
      rcases Nat.lt_or_ge i st.rel_to_ids.length with h1 | h1
      · rw [getD_snoc_lt _ _ _ _ h1]; exact hinv.rel_eq i h1
      · have hieq : i = st.rel_to_ids.length := by omega
        subst hieq
        rw [getD_snoc_eq]
  · rw [hT]; simp

theorem runTrials_inv {M : Type} [Inhabited M] (ri : RunInputs M)
    (hfam : selectSampler (getVal ri.hyperparams_dict KG_EMBEDDING_MODEL) ≠ none)
    (hsel : is_mean_rank_selected ri = true ∨ is_hits_at_k_selected ri = true) :
    ∀ (n : Nat) (st : LoopState M), TrialListsInv ri st →
      ∃ st2, runTrials ri n st = Except.ok st2 ∧ TrialListsInv ri st2 ∧
        st2.trained_models.length = st.trained_models.length + n := by
  intro n
  induction n with
  | zero => intro st hinv; exact ⟨st, rfl, hinv, rfl⟩
  | succ n ih =>
    intro st hinv
    cases htag : selectSampler (getVal ri.hyperparams_dict KG_EMBEDDING_MODEL) with
    | none => exact absurd htag hfam
    | some tag =>
      obtain ⟨hinv2, hlen⟩ := trialStep_inv ri tag st (generalConfig ri st) hsel hinv
      obtain ⟨st2, hrun, hinv3, hlen2⟩ := ih (trialStep ri tag st (generalConfig ri st)) hinv2
      refine ⟨st2, ?_, hinv3, by omega⟩
      simp [runTrials, runTrial, htag, hrun]

/-! ## Claim C1: selection of the returned trial -/

theorem getD_map_const {α β : Type} (l : List α) (b : β) :
    ∀ i, (l.map (fun _ => b)).getD i b = b := by
  induction l with
  | nil => intro i; simp
  | cons x xs ih => intro i; cases i <;> simp [ih]

/-- C1: for every run with at least one recognized evaluation metric
requested, a positive trial budget and a recognized model family, the loop
completes, the value recorded in the results collection for trial i is the
primary metric (mean rank whenever mean rank is among the requested metrics,
hits-at-k otherwise) of the model trained in trial i, and the optimizer
returns the model, loss history, mappings, evaluation summary and
configuration read at the first index attaining the maximum of the results
collection. -/
theorem optimize_returns_argmax_trial {M : Type} [Inhabited M] (ri : RunInputs M)
    (hjoint : ∀ (m : M) (kk : Nat), ri.oracles.compute_mean_rank_and_hits_at_k m kk =
      (ri.oracles.compute_mean_rank m, ri.oracles.compute_hits_at_k m kk))
    (hsel : is_mean_rank_selected ri = true ∨ is_hits_at_k_selected ri = true)
    (hiters : 1 ≤ maxIters ri)
    (hfam : selectSampler (getVal ri.hyperparams_dict KG_EMBEDDING_MODEL) ≠ none) :
    ∃ (st : LoopState M) (idx : Nat),
      runTrials ri (maxIters ri) (initialState ri) = Except.ok st ∧
      st.trained_models.length = maxIters ri ∧
      (∀ i, i < maxIters ri →
        st.eval_results.getD i 0 = primaryMetric ri (st.trained_models.getD i default)) ∧
      argmaxIdx st.eval_results = some idx ∧
      idx < maxIters ri ∧
      (∀ j, j < maxIters ri → st.eval_results.getD j 0 ≤ st.eval_results.getD idx 0) ∧
      (∀ j, j < idx → st.eval_results.getD j 0 < st.eval_results.getD idx 0) ∧
      optimize_hyperparams ri = Except.ok {
        trained_model := st.trained_models.getD idx default
        epoch_loss := st.epoch_losses.getD idx (Val.num 0)
        entity_to_id := ri.entity_to_id
        rel_to_id := ri.rel_to_id
        eval_summary := (observedEvalSummaries st).getD idx st.evalSummary
        metric_label := MEAN_RANK
        params := (observedModelsParams st).getD idx st.config } := by
  obtain ⟨st, hrun, hinv, hlen⟩ :=
    runTrials_inv ri hfam hsel (maxIters ri) (initialState ri) (initialState_inv ri)
  have hlen0 : (initialState ri).trained_models.length = 0 := rfl
  rw [hlen0, Nat.zero_add] at hlen
  have hlenE : st.eval_results.length = maxIters ri := by rw [hinv.len_eval, hlen]
  have hne : st.eval_results ≠ [] := by
    intro hcon
    rw [hcon] at hlenE
    simp at hlenE
    omega
  obtain ⟨idx, hidx⟩ := argmaxIdx_isSome st.eval_results hne
  obtain ⟨hidxlt, hmax, hfirst⟩ := argmaxIdx_spec st.eval_results idx hidx
  rw [hlenE] at hidxlt
  refine ⟨st, idx, hrun, hlen, ?_, hidx, hidxlt, ?_, hfirst, ?_⟩
  · intro i hi
    rw [← appendedResult_eq_primary ri hjoint]
    exact hinv.eval_eq i (by rw [hlenE]; exact hi)
  · intro j hj
    exact hmax j (by rw [hlenE]; exact hj)
  · simp only [optimize_hyperparams, hrun, hidx]
    congr 1
    have hentlen : idx < st.entity_to_ids.length := by rw [hinv.len_ent, hlen]; exact hidxlt
    have hrellen : idx < st.rel_to_ids.length := by rw [hinv.len_rel, hlen]; exact hidxlt
    rw [hinv.ent_eq idx hentlen, hinv.rel_eq idx hrellen]

/-- Concrete oracles over natural-number models, satisfying the evaluator
interface contract that the joint metric computation agrees with the two
single ones. -/
def natOracles : Oracles Nat where
  get_kg_embedding_model := fun d =>
    match dget d LEARNING_RATE with
    | some (Val.scalar (Scalar.num n)) => n.toNat
    | _ => 0
  train_model := fun m _ _ _ s => (m + s, Val.num 7)
  compute_mean_rank := fun m => Int.ofNat m
  compute_hits_at_k := fun m kk => Int.ofNat (m + kk)
  compute_mean_rank_and_hits_at_k := fun m kk => (Int.ofNat m, Int.ofNat (m + kk))

/-- A concrete search space for the TransE family: two learning rates, three
singleton general lists, two margins, a two-element normalization candidate
list, a budget of two trials. -/
def hpoDict : Dict :=
  [(LEARNING_RATE, Val.list [Scalar.num 1, Scalar.num 2]),
   (EMBEDDING_DIM, Val.list [Scalar.num 10]),
   (NUM_EPOCHS, Val.list [Scalar.num 5]),
   (BATCH_SIZE, Val.list [Scalar.num 16]),
   (MARGIN_LOSS, Val.list [Scalar.num 1, Scalar.num 3]),
   (NORMALIZATION_OF_ENTITIES, Val.list [Scalar.bool true, Scalar.bool false]),
   (NUM_OF_MAX_HPO_ITERS, Val.num 2),
   (KG_EMBEDDING_MODEL, Val.str TRANS_E)]

/-- A concrete run: both metrics requested, a stream whose draws differ
between the first trial (positions 0 to 5) and the second (positions 6 on). -/
def sampleRun : RunInputs Nat where
  oracles := natOracles
  entity_to_id := [("a", 0), ("b", 1), ("c", 2)]
  rel_to_id := [("knows", 0)]
  hyperparams_dict := hpoDict
  eval_metrics := ["mean_rank", "hits_at_k"]
  k_for_hits := 3
  stream := fun i => if i < 6 then 0 else 1
  seed := 42

/-- Witness for C1 at the concrete run: both hypotheses hold and the
conclusion follows by applying the theorem. -/
theorem optimize_returns_argmax_trial_witness :
    ∃ (st : LoopState Nat) (idx : Nat),
      runTrials sampleRun (maxIters sampleRun) (initialState sampleRun) = Except.ok st ∧
      st.trained_models.length = maxIters sampleRun ∧
      (∀ i, i < maxIters sampleRun →
        st.eval_results.getD i 0 = primaryMetric sampleRun (st.trained_models.getD i default)) ∧
      argmaxIdx st.eval_results = some idx ∧
      idx < maxIters sampleRun ∧
      (∀ j, j < maxIters sampleRun → st.eval_results.getD j 0 ≤ st.eval_results.getD idx 0) ∧
      (∀ j, j < idx → st.eval_results.getD j 0 < st.eval_results.getD idx 0) ∧
      optimize_hyperparams sampleRun = Except.ok {
        trained_model := st.trained_models.getD idx default
        epoch_loss := st.epoch_losses.getD idx (Val.num 0)
        entity_to_id := sampleRun.entity_to_id
        rel_to_id := sampleRun.rel_to_id
        eval_summary := (observedEvalSummaries st).getD idx st.evalSummary
        metric_label := MEAN_RANK
        params := (observedModelsParams st).getD idx st.config } :=
  optimize_returns_argmax_trial sampleRun (fun _ _ => rfl) (Or.inl (by decide))
    (by decide) (by decide)

/-! ## Claim C4: hits-only runs and the returned metric label -/

/-- Shape of the shared summary object when only hits-at-k is requested: it is
empty before the first trial and afterwards holds exactly the one hits key;
every stored snapshot holds exactly that one key. -/
def HitsOnlyShape {M : Type} (st : LoopState M) : Prop :=
  (st.evalSummary = [] ∨ ∃ v : Val, st.evalSummary = [(HITS_AT_K, v)]) ∧
  (∀ d ∈ st.evalSummariesSnap, ∃ v : Val, d = [(HITS_AT_K, v)]) ∧
  (st.evalSummariesSnap ≠ [] → ∃ v : Val, st.evalSummary = [(HITS_AT_K, v)])

theorem trialStep_hitsOnlyShape {M : Type} (ri : RunInputs M) (tag : SamplerTag)
    (st : LoopState M) (c0 : Dict)
    (hmr : is_mean_rank_selected ri = false) (hh : is_hits_at_k_selected ri = true)
    (hshape : HitsOnlyShape st) : HitsOnlyShape (trialStep ri tag st c0) := by
  have hev : trialEval ri (trialTrained ri tag st c0).1 st.evalSummary =
      (odSet st.evalSummary HITS_AT_K
          (Val.num (ri.oracles.compute_hits_at_k (trialTrained ri tag st c0).1 ri.k_for_hits)),
        [ri.oracles.compute_hits_at_k (trialTrained ri tag st c0).1 ri.k_for_hits],
        [odSet st.evalSummary HITS_AT_K
          (Val.num (ri.oracles.compute_hits_at_k (trialTrained ri tag st c0).1 ri.k_for_hits))]) := by
    simp [trialEval, hmr, hh]
  have hnew : ∃ v : Val, odSet st.evalSummary HITS_AT_K
      (Val.num (ri.oracles.compute_hits_at_k (trialTrained ri tag st c0).1 ri.k_for_hits)) =
        [(HITS_AT_K, v)] := by
    rcases hshape.1 with h0 | ⟨v, hv⟩
    · refine ⟨Val.num (ri.oracles.compute_hits_at_k (trialTrained ri tag st c0).1
        ri.k_for_hits), ?_⟩
      rw [h0]
      rfl
    · refine ⟨Val.num (ri.oracles.compute_hits_at_k (trialTrained ri tag st c0).1
        ri.k_for_hits), ?_⟩
      rw [hv]
      simp [odSet]
  have hES : (trialStep ri tag st c0).evalSummariesSnap =
      st.evalSummariesSnap ++ (trialEval ri (trialTrained ri tag st c0).1 st.evalSummary).2.2 := rfl
  have hEV : (trialStep ri tag st c0).evalSummary =
      (trialEval ri (trialTrained ri tag st c0).1 st.evalSummary).1 := rfl
  obtain ⟨v, hv⟩ := hnew
  refine ⟨?_, ?_, ?_⟩
  · right
    exact ⟨v, by rw [hEV, hev]; exact hv⟩
  · intro d hd
    rw [hES, hev] at hd
    rcases List.mem_append.mp hd with h1 | h1
    · exact hshape.2.1 d h1
    · simp at h1
      exact ⟨v, by rw [h1]; exact hv⟩
  · intro _
    exact ⟨v, by rw [hEV, hev]; exact hv⟩

theorem runTrials_hitsOnlyShape {M : Type} (ri : RunInputs M)
    (hmr : is_mean_rank_selected ri = false) (hh : is_hits_at_k_selected ri = true) :
    ∀ (n : Nat) (st st2 : LoopState M), runTrials ri n st = Except.ok st2 →
      HitsOnlyShape st → HitsOnlyShape st2 := by
  intro n
  induction n with
  | zero =>
    intro st st2 hrun hshape
    have : st = st2 := by simpa [runTrials] using hrun
    exact this ▸ hshape
  | succ n ih =>
    intro st st2 hrun hshape
    cases htag : selectSampler (getVal ri.hyperparams_dict KG_EMBEDDING_MODEL) with
    | none => simp [runTrials, runTrial, htag] at hrun
    | some tag =>
      simp only [runTrials, runTrial, htag] at hrun
      exact ih _ _ hrun (trialStep_hitsOnlyShape ri tag st _ hmr hh hshape)

theorem initialState_hitsOnlyShape {M : Type} (ri : RunInputs M) :
    HitsOnlyShape (initialState ri) := by
  refine ⟨Or.inl rfl, ?_, ?_⟩
  · intro d hd
    simp [initialState] at hd
  · intro hne
    exact absurd rfl hne

/-- C4 (amended): when only hits-at-k is requested, with a positive budget and
a recognized family, every trial records an evaluation summary containing
exactly the single hits-at-k metric key, the summaries the stored references
show after the run also contain exactly that key, and the primary-metric label
returned with the best-trial record IS the hardcoded constant identifying mean
rank even though mean rank was never requested. -/
theorem hits_only_summaries_and_label {M : Type} [Inhabited M] (ri : RunInputs M)
    (hmr : is_mean_rank_selected ri = false) (hh : is_hits_at_k_selected ri = true)
    (hiters : 1 ≤ maxIters ri)
    (hfam : selectSampler (getVal ri.hyperparams_dict KG_EMBEDDING_MODEL) ≠ none) :
    ∃ st : LoopState M,
      runTrials ri (maxIters ri) (initialState ri) = Except.ok st ∧
      st.evalSummariesSnap.length = maxIters ri ∧
      (∀ d ∈ st.evalSummariesSnap, ∃ v : Val, d = [(HITS_AT_K, v)]) ∧
      (∀ d ∈ observedEvalSummaries st, ∃ v : Val, d = [(HITS_AT_K, v)]) ∧
      ∃ bt : BestTrial M, optimize_hyperparams ri = Except.ok bt ∧
        bt.metric_label = MEAN_RANK ∧ ∃ v : Val, bt.eval_summary = [(HITS_AT_K, v)] := by
  obtain ⟨st, hrun, hinv, hlen⟩ :=
    runTrials_inv ri hfam (Or.inr hh) (maxIters ri) (initialState ri) (initialState_inv ri)
  have hlen0 : (initialState ri).trained_models.length = 0 := rfl
  rw [hlen0, Nat.zero_add] at hlen
  have hshape := runTrials_hitsOnlyShape ri hmr hh (maxIters ri) (initialState ri) st hrun
    (initialState_hitsOnlyShape ri)
  have hlenES : st.evalSummariesSnap.length = maxIters ri := by rw [hinv.len_esnap, hlen]
  have hsnapne : st.evalSummariesSnap ≠ [] := by
    intro hcon
    rw [hcon] at hlenES
    simp at hlenES
    omega
  obtain ⟨v, hv⟩ := hshape.2.2 hsnapne
  have hlenE : st.eval_results.length = maxIters ri := by rw [hinv.len_eval, hlen]
  have hne : st.eval_results ≠ [] := by
    intro hcon
    rw [hcon] at hlenE
    simp at hlenE
    omega
  obtain ⟨idx, hidx⟩ := argmaxIdx_isSome st.eval_results hne
  refine ⟨st, hrun, hlenES, hshape.2.1, ?_, ?_⟩
  · intro d hd
    obtain ⟨x, _, hdx⟩ := List.mem_map.mp hd
    exact ⟨v, by rw [← hdx]; exact hv⟩
  · refine ⟨{
      trained_model := st.trained_models.getD idx default
      epoch_loss := st.epoch_losses.getD idx (Val.num 0)
      entity_to_id := st.entity_to_ids.getD idx []
      rel_to_id := st.rel_to_ids.getD idx []
      eval_summary := (observedEvalSummaries st).getD idx st.evalSummary
      metric_label := MEAN_RANK
      params := (observedModelsParams st).getD idx st.config }, ?_, rfl, ?_⟩
    · simp only [optimize_hyperparams, hrun, hidx]
    · show ∃ w : Val, (observedEvalSummaries st).getD idx st.evalSummary = [(HITS_AT_K, w)]
      refine ⟨v, ?_⟩
      have hobs : (observedEvalSummaries st).getD idx st.evalSummary = st.evalSummary := by
        unfold observedEvalSummaries
        exact getD_map_const st.evalSummariesSnap st.evalSummary idx
      rw [hobs, hv]

/-- Building a run that differs from the sample run only in the requested
metric names. -/
def withMetrics (ri : RunInputs Nat) (ms : List String) : RunInputs Nat :=
  { ri with eval_metrics := ms }

/-- The concrete hits-only run. -/
def hitsOnlyRun : RunInputs Nat := withMetrics sampleRun ["hits_at_k"]

/-- The metric-label component of an optimizer outcome. -/
def bestMetricLabel {M : Type} : Except PyError (BestTrial M) → Option String
  | Except.ok bt => some bt.metric_label
  | Except.error _ => none

/-- C4 counterexample: on the concrete run requesting only hits_at_k, the
optimizer succeeds and the returned primary-metric label IS the constant
identifying mean rank, contradicting the claim that it is not that constant
when only hits-at-k is requested. -/
theorem hits_only_label_counterexample :
    is_mean_rank_selected hitsOnlyRun = false ∧
    is_hits_at_k_selected hitsOnlyRun = true ∧
    bestMetricLabel (optimize_hyperparams hitsOnlyRun) = some MEAN_RANK := by
  refine ⟨by decide, by decide, by decide⟩

/-- Witness for the amended C4 at the concrete hits-only run. -/
theorem hits_only_summaries_and_label_witness :
    ∃ st : LoopState Nat,
      runTrials hitsOnlyRun (maxIters hitsOnlyRun) (initialState hitsOnlyRun) = Except.ok st ∧
      st.evalSummariesSnap.length = maxIters hitsOnlyRun ∧
      (∀ d ∈ st.evalSummariesSnap, ∃ v : Val, d = [(HITS_AT_K, v)]) ∧
      (∀ d ∈ observedEvalSummaries st, ∃ v : Val, d = [(HITS_AT_K, v)]) ∧
      ∃ bt : BestTrial Nat, optimize_hyperparams hitsOnlyRun = Except.ok bt ∧
        bt.metric_label = MEAN_RANK ∧ ∃ v : Val, bt.eval_summary = [(HITS_AT_K, v)] :=
  hits_only_summaries_and_label hitsOnlyRun (by decide) (by decide) (by decide) (by decide)

/-! ## Claim C8: zero recognized metrics -/

theorem runTrials_no_metrics {M : Type} (ri : RunInputs M)
    (hmr : is_mean_rank_selected ri = false) (hh : is_hits_at_k_selected ri = false)
    (hfam : selectSampler (getVal ri.hyperparams_dict KG_EMBEDDING_MODEL) ≠ none) :
    ∀ (n : Nat) (st : LoopState M), ∃ st2, runTrials ri n st = Except.ok st2 ∧
      st2.eval_results = st.eval_results ∧
      st2.trained_models.length = st.trained_models.length + n := by
  intro n
  induction n with
  | zero => intro st; exact ⟨st, rfl, rfl, rfl⟩
  | succ n ih =>
    intro st
    cases htag : selectSampler (getVal ri.hyperparams_dict KG_EMBEDDING_MODEL) with
    | none => exact absurd htag hfam
    | some tag =>
      obtain ⟨st2, hrun, heval, hlen⟩ := ih (trialStep ri tag st (generalConfig ri st))
      have hstep : (trialStep ri tag st (generalConfig ri st)).eval_results =
          st.eval_results := by
        show st.eval_results ++
          (trialEval ri (trialTrained ri tag st (generalConfig ri st)).1 st.evalSummary).2.1 = _
        rw [trialEval_none ri _ _ hmr hh]
        simp
      have hsteplen : (trialStep ri tag st (generalConfig ri st)).trained_models.length =
          st.trained_models.length + 1 := by
        show (st.trained_models ++ [(trialTrained ri tag st (generalConfig ri st)).1]).length = _
        simp
      refine ⟨st2, ?_, by rw [heval, hstep], by omega⟩
      simp [runTrials, runTrial, htag, hrun]

/-- C8 (amended): when the requested metric names contain neither mean_rank
nor hits_at_k, the loop still trains a model in every one of the max_iters
trials, the results collection stays empty, and the run then fails with the
numpy ValueError raised by argmax on an empty sequence — not with a
ConfigurationError — and no best-trial record is returned. -/
theorem no_recognized_metrics_value_error {M : Type} [Inhabited M] (ri : RunInputs M)
    (hmr : is_mean_rank_selected ri = false) (hh : is_hits_at_k_selected ri = false)
    (hfam : selectSampler (getVal ri.hyperparams_dict KG_EMBEDDING_MODEL) ≠ none) :
    ∃ st : LoopState M,
      runTrials ri (maxIters ri) (initialState ri) = Except.ok st ∧
      st.trained_models.length = maxIters ri ∧
      st.eval_results = [] ∧
      optimize_hyperparams ri =
        Except.error (PyError.valueError "attempt to get argmax of an empty sequence") := by
  obtain ⟨st, hrun, heval, hlen⟩ :=
    runTrials_no_metrics ri hmr hh hfam (maxIters ri) (initialState ri)
  have heval2 : st.eval_results = [] := by
    rw [heval]; rfl
  have hlen2 : st.trained_models.length = maxIters ri := by
    have h0 : (initialState ri).trained_models.length = 0 := rfl
    omega
  refine ⟨st, hrun, hlen2, heval2, ?_⟩
  simp only [optimize_hyperparams, hrun, heval2, argmaxIdx]

/-- The concrete run whose requested metric list names no recognized metric. -/
def noMetricsRun : RunInputs Nat := withMetrics sampleRun ["accuracy"]

/-- Recognizer for the ValueError outcome. -/
def isValueErrorResult {M : Type} : Except PyError (BestTrial M) → Bool
  | Except.error (PyError.valueError _) => true
  | _ => false

/-- Recognizer for the ConfigurationError outcome of the design taxonomy. -/
def isConfigurationErrorResult {M : Type} : Except PyError (BestTrial M) → Bool
  | Except.error (PyError.configurationError _) => true
  | _ => false

/-- C8 counterexample: on the concrete run requesting only an unrecognized
metric name, the whole budget of two trials is trained, and the search then
fails with the argmax ValueError, not with a ConfigurationError. -/
theorem no_metrics_counterexample :
    isValueErrorResult (optimize_hyperparams noMetricsRun) = true ∧
    isConfigurationErrorResult (optimize_hyperparams noMetricsRun) = false ∧
    (runTrials noMetricsRun (maxIters noMetricsRun) (initialState noMetricsRun)).toOption.map
      (fun st => st.trained_models.length) = some 2 := by
  refine ⟨by decide, by decide, by decide⟩

/-- Witness for the amended C8 at the concrete run. -/
theorem no_recognized_metrics_value_error_witness :
    ∃ st : LoopState Nat,
      runTrials noMetricsRun (maxIters noMetricsRun) (initialState noMetricsRun) =
        Except.ok st ∧
      st.trained_models.length = maxIters noMetricsRun ∧
      st.eval_results = [] ∧
      optimize_hyperparams noMetricsRun =
        Except.error (PyError.valueError "attempt to get argmax of an empty sequence") :=
  no_recognized_metrics_value_error noMetricsRun (by decide) (by decide) (by decide)

/-! ## Claim C5: the stored per-trial records and the shared objects -/

/-- The final state of the concrete sample run. -/
def sampleRunState : LoopState Nat :=
  match runTrials sampleRun (maxIters sampleRun) (initialState sampleRun) with
  | Except.ok st => st
  | Except.error _ => initialState sampleRun

/-- C5 counterexample: in the concrete two-trial run, the configuration record
stored for trial 1 is a reference to the shared config object; observed after
trial 2 it shows learning rate 2 (the value sampled in trial 2), while its
contents when trial 1 completed had learning rate 1 — so the stored record was
mutated by a later trial, and likewise the stored trial-1 evaluation summary
shows the trial-2 metric values after the run. -/
theorem trial_records_mutated_counterexample :
    runTrials sampleRun (maxIters sampleRun) (initialState sampleRun) =
      Except.ok sampleRunState ∧
    dget (sampleRunState.modelsParamsSnap.getD 0 []) LEARNING_RATE = some (Val.num 1) ∧
    dget ((observedModelsParams sampleRunState).getD 0 []) LEARNING_RATE =
      some (Val.num 2) ∧
    (observedModelsParams sampleRunState).getD 0 [] ≠
      sampleRunState.modelsParamsSnap.getD 0 [] ∧
    (observedEvalSummaries sampleRunState).getD 0 [] ≠
      sampleRunState.evalSummariesSnap.getD 0 [] := by
  refine ⟨rfl, by decide, by decide, by decide, by decide⟩

theorem runTrial_last_snap {M : Type} (ri : RunInputs M) (st st1 : LoopState M)
    (h : runTrial ri st = Except.ok st1) :
    st1.modelsParamsSnap ≠ [] ∧ st1.modelsParamsSnap.getLast? = some st1.config := by
  cases htag : selectSampler (getVal ri.hyperparams_dict KG_EMBEDDING_MODEL) with
  | none => simp [runTrial, htag] at h
  | some tag =>
    simp only [runTrial, htag, Except.ok.injEq] at h
    subst h
    constructor
    · show st.modelsParamsSnap ++ [trialConfig ri tag st (generalConfig ri st)] ≠ []
      simp
    · show (st.modelsParamsSnap ++ [trialConfig ri tag st (generalConfig ri st)]).getLast? =
        some (trialConfig ri tag st (generalConfig ri st))
      rw [List.getLast?_append_cons]
      rfl

theorem runTrials_last_snap {M : Type} (ri : RunInputs M) :
    ∀ (n : Nat) (st st2 : LoopState M), runTrials ri n st = Except.ok st2 →
      (st.modelsParamsSnap ≠ [] ∧ st.modelsParamsSnap.getLast? = some st.config) ∨ 1 ≤ n →
      st2.modelsParamsSnap ≠ [] ∧ st2.modelsParamsSnap.getLast? = some st2.config := by
  intro n
  induction n with
  | zero =>
    intro st st2 hrun hstart
    have heq : st = st2 := by simpa [runTrials] using hrun
    rcases hstart with h | h
    · exact heq ▸ h
    · omega
  | succ n ih =>
    intro st st2 hrun _
    cases h1 : runTrial ri st with
    | error e => simp [runTrials, h1] at hrun
    | ok stm =>
      have hrun2 : runTrials ri n stm = Except.ok st2 := by
        simpa [runTrials, h1] using hrun
      exact ih stm st2 hrun2 (Or.inl (runTrial_last_snap ri st stm h1))

/-- C5 (amended): the configuration records and evaluation summaries stored
per trial all alias one shared object each, mutated in place every iteration;
consequently the contents a stored record shows after the run are those of the
final trial, not those it had when its own trial completed: after any run of
at least one trial the shared config equals the snapshot of the LAST completed
trial, and every stored record resolves to that same final contents.  The
models, loss histories and id-mapping lists are genuinely per-trial. -/
theorem trial_records_alias_shared_config {M : Type} (ri : RunInputs M)
    (n : Nat) (hn : 1 ≤ n) (st0 st : LoopState M)
    (hrun : runTrials ri n st0 = Except.ok st) :
    st.modelsParamsSnap ≠ [] ∧
    st.modelsParamsSnap.getLast? = some st.config ∧
    observedModelsParams st = List.replicate st.modelsParamsSnap.length st.config := by
  obtain ⟨h1, h2⟩ := runTrials_last_snap ri n st0 st hrun (Or.inr hn)
  refine ⟨h1, h2, ?_⟩
  unfold observedModelsParams
  exact List.map_const' st.modelsParamsSnap st.config

/-- Witness for the amended C5 at the concrete run: the last stored snapshot
is the final shared contents. -/
theorem trial_records_alias_shared_config_witness :
    sampleRunState.modelsParamsSnap ≠ [] ∧
    sampleRunState.modelsParamsSnap.getLast? = some sampleRunState.config ∧
    observedModelsParams sampleRunState =
      List.replicate sampleRunState.modelsParamsSnap.length sampleRunState.config :=
  trial_records_alias_shared_config sampleRun 2 (by decide)
    (initialState sampleRun) sampleRunState rfl

/-! ## Claim C6: the TransX-specific sampler -/

/-- The literal shape of the TransX sampler output: the margin entry holds the
SECOND of the two consecutive margin draws, and the normalization entry holds
the raw search-space value for that key. -/
theorem sampleTransX_shape (hp : Dict) (stream : Nat → Nat) (pos : Nat) :
    sampleTransXSpecificParams hp stream pos =
      ([(MARGIN_LOSS, Val.scalar (choice (getList hp MARGIN_LOSS) (stream (pos + 1)))),
        (NORMALIZATION_OF_ENTITIES, getVal hp NORMALIZATION_OF_ENTITIES)], pos + 2) := rfl

/-- C6 (amended): the sampler consumes exactly two draws, both on the margin
option; the margin value stored is the second draw and is always one element
of the margin candidate list (any position of which is reachable by some
stream, so the choice is uniform over the list), while the normalization
option is assigned the ENTIRE raw candidate value from the search space, with
no sampling at all. -/
theorem trans_x_sampler_margin_and_normalization (hp : Dict) (stream : Nat → Nat) (pos : Nat) :
    (sampleTransXSpecificParams hp stream pos).2 = pos + 2 ∧
    dget (sampleTransXSpecificParams hp stream pos).1 MARGIN_LOSS =
      some (Val.scalar (choice (getList hp MARGIN_LOSS) (stream (pos + 1)))) ∧
    (getList hp MARGIN_LOSS ≠ [] → ∃ j, j < (getList hp MARGIN_LOSS).length ∧
      dget (sampleTransXSpecificParams hp stream pos).1 MARGIN_LOSS =
        some (Val.scalar ((getList hp MARGIN_LOSS).getD j (Scalar.num 0)))) ∧
    (∀ j, j < (getList hp MARGIN_LOSS).length → ∃ stream2 : Nat → Nat,
      dget (sampleTransXSpecificParams hp stream2 pos).1 MARGIN_LOSS =
        some (Val.scalar ((getList hp MARGIN_LOSS).getD j (Scalar.num 0)))) ∧
    dget (sampleTransXSpecificParams hp stream pos).1 NORMALIZATION_OF_ENTITIES =
      some (getVal hp NORMALIZATION_OF_ENTITIES) := by
  refine ⟨rfl, rfl, ?_, ?_, rfl⟩
  · intro hne
    have hlen : 0 < (getList hp MARGIN_LOSS).length := List.length_pos.mpr hne
    exact ⟨stream (pos + 1) % (getList hp MARGIN_LOSS).length, Nat.mod_lt _ hlen, rfl⟩
  · intro j hj
    refine ⟨fun _ => j, ?_⟩
    show some (Val.scalar (choice (getList hp MARGIN_LOSS) j)) = _
    unfold choice
    rw [Nat.mod_eq_of_lt hj]

/-- Witness for the amended C6 at the concrete search space. -/
theorem trans_x_sampler_witness :
    getList hpoDict MARGIN_LOSS ≠ [] ∧
    ∃ j, j < (getList hpoDict MARGIN_LOSS).length ∧
      dget (sampleTransXSpecificParams hpoDict (fun i => i) 0).1 MARGIN_LOSS =
        some (Val.scalar ((getList hpoDict MARGIN_LOSS).getD j (Scalar.num 0))) :=
  ⟨by decide,
   (trans_x_sampler_margin_and_normalization hpoDict (fun i => i) 0).2.2.1 (by decide)⟩

/-- C6 counterexample: with the two-element normalization candidate list of
the concrete search space, the value the sampler stores under the
normalization key is the candidate list itself, which is not an element of
that list — so the normalization option is NOT one uniformly chosen element of
its candidate list. -/
theorem normalization_not_sampled_counterexample :
    dget (sampleTransXSpecificParams hpoDict (fun _ => 0) 0).1 NORMALIZATION_OF_ENTITIES =
      some (Val.list [Scalar.bool true, Scalar.bool false]) ∧
    Val.list [Scalar.bool true, Scalar.bool false] ≠ Val.scalar (Scalar.bool true) ∧
    Val.list [Scalar.bool true, Scalar.bool false] ≠ Val.scalar (Scalar.bool false) := by
  refine ⟨by decide, by decide, by decide⟩

/-! ## Claim C7: unrecognized model family -/

/-- C7 (amended): when the configured model family is not among the five
recognized names, the run aborts during the FIRST trial, at the moment the
never-assigned sampling function is invoked, with the Python unbound-local
error — not with a ConfigurationError raised before any trial work — and no
best-trial record is returned. -/
theorem unknown_family_unbound_local {M : Type} [Inhabited M] (ri : RunInputs M)
    (hfam : selectSampler (getVal ri.hyperparams_dict KG_EMBEDDING_MODEL) = none)
    (hiters : 1 ≤ maxIters ri) :
    optimize_hyperparams ri =
      Except.error (PyError.unboundLocalError "param_sampling_fct") := by
  obtain ⟨m, hm⟩ : ∃ m, maxIters ri = m + 1 := ⟨maxIters ri - 1, by omega⟩
  simp only [optimize_hyperparams, hm, runTrials, runTrial, hfam]

/-- Recognizer for the unbound-local outcome. -/
def isUnboundLocalResult {M : Type} : Except PyError (BestTrial M) → Bool
  | Except.error (PyError.unboundLocalError _) => true
  | _ => false

/-- The concrete run whose configured family name is unknown. -/
def unknownFamilyRun : RunInputs Nat :=
  { sampleRun with hyperparams_dict := odSet hpoDict KG_EMBEDDING_MODEL (Val.str "FooModel") }

/-- C7 counterexample: with the unknown family FooModel the search fails with
the unbound-local error raised when the sampling function is first invoked
inside the first trial, not with a ConfigurationError. -/
theorem unknown_family_counterexample :
    isUnboundLocalResult (optimize_hyperparams unknownFamilyRun) = true ∧
    isConfigurationErrorResult (optimize_hyperparams unknownFamilyRun) = false := by
  refine ⟨by decide, by decide⟩

/-- Witness for the amended C7 at the concrete run. -/
theorem unknown_family_unbound_local_witness :
    optimize_hyperparams unknownFamilyRun =
      Except.error (PyError.unboundLocalError "param_sampling_fct") :=
  unknown_family_unbound_local unknownFamilyRun (by decide) (by decide)

/-! ## Claim C9: the seed argument and the sampled values

The seed is consumed only by the numpy seeding call (whose generator nothing
later reads), by the SEED entry written into the shared config, and by the
trainer call; every random.choice draw comes from the separate process-wide
Python random stream.  The simulation below relates a run with seed s to the
same run with another seed: every reachable config of the second run is the
corresponding config of the first with only the value under the seed key
replaced. -/

/-- Dropping the seed entry of a configuration. -/
def eraseSeed (d : Dict) : Dict :=
  d.filter (fun p => p.1 != SEED)

/-- Replacing the value stored under the seed key, entry by entry. -/
def mapSeedVal (s : Nat) : Dict → Dict
  | [] => []
  | p :: ps => (if p.1 = SEED then (p.1, Val.num s) else p) :: mapSeedVal s ps

theorem mapSeedVal_odSet_ne (s : Nat) (d : Dict) (k : String) (v : Val) (hk : k ≠ SEED) :
    odSet (mapSeedVal s d) k v = mapSeedVal s (odSet d k v) := by
  induction d with
  | nil => simp [odSet, mapSeedVal, hk]
  | cons p ps ih =>
    by_cases hp : p.1 = SEED
    · have hks : ¬SEED = k := fun h => hk h.symm
      have hpk : ¬p.1 = k := by rw [hp]; exact hks
      simp [odSet, mapSeedVal, hp, hpk, hks, ih]
    · by_cases hpk : p.1 = k
      · simp [odSet, mapSeedVal, hp, hpk, hk]
      · simp [odSet, mapSeedVal, hp, hpk, ih]

theorem mapSeedVal_odSet_seed (s : Nat) (d : Dict) (w : Val) :
    odSet (mapSeedVal s d) SEED (Val.num s) = mapSeedVal s (odSet d SEED w) := by
  induction d with
  | nil => simp [odSet, mapSeedVal]
  | cons p ps ih =>
    by_cases hp : p.1 = SEED
    · simp [odSet, mapSeedVal, hp]
    · simp [odSet, mapSeedVal, hp, ih]

theorem mapSeedVal_odUpdate (s : Nat) (e : Dict) :
    ∀ d : Dict, (∀ p ∈ e, p.1 ≠ SEED) →
      odUpdate (mapSeedVal s d) e = mapSeedVal s (odUpdate d e) := by
  induction e with
  | nil => intro d _; rfl
  | cons q qs ih =>
    intro d he
    have hq : q.1 ≠ SEED := he q (List.mem_cons_self q qs)
    show odUpdate (odSet (mapSeedVal s d) q.1 q.2) qs =
      mapSeedVal s (odUpdate (odSet d q.1 q.2) qs)
    rw [mapSeedVal_odSet_ne s d q.1 q.2 hq]
    exact ih (odSet d q.1 q.2) (fun p hp => he p (List.mem_cons_of_mem q hp))

theorem dget_odUpdate_ne (e : Dict) :
    ∀ (d : Dict) (k : String), (∀ p ∈ e, p.1 ≠ k) →
      dget (odUpdate d e) k = dget d k := by
  induction e with
  | nil => intro d k _; rfl
  | cons q qs ih =>
    intro d k he
    have hq : q.1 ≠ k := he q (List.mem_cons_self q qs)
    show dget (odUpdate (odSet d q.1 q.2) qs) k = dget d k
    rw [ih (odSet d q.1 q.2) k (fun p hp => he p (List.mem_cons_of_mem q hp))]
    exact dget_odSet_ne d q.1 k q.2 hq

theorem eraseSeed_mapSeedVal (s : Nat) (d : Dict) :
    eraseSeed (mapSeedVal s d) = eraseSeed d := by
  induction d with
  | nil => rfl
  | cons p ps ih =>
    by_cases hp : p.1 = SEED
    · simp only [eraseSeed] at ih ⊢
      simp [mapSeedVal, List.filter_cons, hp, ih]
    · simp only [eraseSeed] at ih ⊢
      simp [mapSeedVal, List.filter_cons, hp, ih]

/-- The literal shape of the ConvE sampler output. -/
theorem sampleConvE_shape (hp : Dict) (stream : Nat → Nat) (pos : Nat) :
    (sampleConvESpecificParams hp stream pos).1 =
      [(CONV_E_HEIGHT, Val.scalar (choice (getList hp CONV_E_HEIGHT) (stream pos))),
       (CONV_E_WIDTH, Val.scalar (choice (getList hp CONV_E_WIDTH) (stream (pos + 1)))),
       (CONV_E_INPUT_CHANNELS,
         Val.scalar (choice (getList hp CONV_E_INPUT_CHANNELS) (stream (pos + 2)))),
       (CONV_E_OUTPUT_CHANNELS,
         Val.scalar (choice (getList hp CONV_E_OUTPUT_CHANNELS) (stream (pos + 3)))),
       (CONV_E_KERNEL_HEIGHT,
         Val.scalar (choice (getList hp CONV_E_KERNEL_HEIGHT) (stream (pos + 4)))),
       (CONV_E_KERNEL_WIDTH,
         Val.scalar (choice (getList hp CONV_E_KERNEL_WIDTH) (stream (pos + 5)))),
       (CONV_E_INPUT_DROPOUT,
         Val.scalar (choice (getList hp CONV_E_INPUT_DROPOUT) (stream (pos + 6)))),
       (CONV_E_OUTPUT_DROPOUT,
         Val.scalar (choice (getList hp CONV_E_OUTPUT_DROPOUT) (stream (pos + 7)))),
       (CONV_E_FEATURE_MAP_DROPOUT,
         Val.scalar (choice (getList hp CONV_E_FEATURE_MAP_DROPOUT) (stream (pos + 8))))] := rfl

/-- Neither sampler ever writes under the seed key. -/
theorem sampler_keys_ne_seed (tag : SamplerTag) (hp : Dict) (stream : Nat → Nat) (pos : Nat) :
    ∀ p ∈ (runSampler tag hp stream pos).1, p.1 ≠ SEED := by
  cases tag with
  | transX =>
    intro p hmem
    have hshape : (runSampler SamplerTag.transX hp stream pos).1 =
        [(MARGIN_LOSS, Val.scalar (choice (getList hp MARGIN_LOSS) (stream (pos + 1)))),
         (NORMALIZATION_OF_ENTITIES, getVal hp NORMALIZATION_OF_ENTITIES)] := rfl
    rw [hshape] at hmem
    rcases List.mem_cons.mp hmem with h | h
    · rw [h]
      exact (by decide : MARGIN_LOSS ≠ SEED)
    · simp at h
      rw [h]
      exact (by decide : NORMALIZATION_OF_ENTITIES ≠ SEED)
  | convE =>
    intro p hmem
    rw [show (runSampler SamplerTag.convE hp stream pos).1 =
      (sampleConvESpecificParams hp stream pos).1 from rfl, sampleConvE_shape] at hmem
    simp only [List.mem_cons, List.not_mem_nil, or_false] at hmem
    rcases hmem with h | h | h | h | h | h | h | h | h
    · rw [h]; exact (by decide : CONV_E_HEIGHT ≠ SEED)
    · rw [h]; exact (by decide : CONV_E_WIDTH ≠ SEED)
    · rw [h]; exact (by decide : CONV_E_INPUT_CHANNELS ≠ SEED)
    · rw [h]; exact (by decide : CONV_E_OUTPUT_CHANNELS ≠ SEED)
    · rw [h]; exact (by decide : CONV_E_KERNEL_HEIGHT ≠ SEED)
    · rw [h]; exact (by decide : CONV_E_KERNEL_WIDTH ≠ SEED)
    · rw [h]; exact (by decide : CONV_E_INPUT_DROPOUT ≠ SEED)
    · rw [h]; exact (by decide : CONV_E_OUTPUT_DROPOUT ≠ SEED)
    · rw [h]; exact (by decide : CONV_E_FEATURE_MAP_DROPOUT ≠ SEED)

theorem generalConfig_seedRel {M : Type} (ri ri2 : RunInputs M) (s2 : Nat)
    (hhp : ri2.hyperparams_dict = ri.hyperparams_dict)
    (hstream : ri2.stream = ri.stream)
    (hent : ri2.entity_to_id = ri.entity_to_id)
    (hrel : ri2.rel_to_id = ri.rel_to_id)
    (hseed : ri2.seed = s2)
    (a b : LoopState M) (hpos : b.pos = a.pos) (hcfg : b.config = mapSeedVal s2 a.config) :
    generalConfig ri2 b = mapSeedVal s2 (generalConfig ri a) := by
  simp only [generalConfig, hhp, hstream, hent, hrel, hseed, hpos, hcfg]
  rw [mapSeedVal_odSet_ne s2 a.config LEARNING_RATE _ (by decide)]
  rw [mapSeedVal_odSet_ne s2 _ EMBEDDING_DIM _ (by decide)]
  rw [mapSeedVal_odSet_ne s2 _ NUM_EPOCHS _ (by decide)]
  rw [mapSeedVal_odSet_ne s2 _ BATCH_SIZE _ (by decide)]
  rw [mapSeedVal_odSet_ne s2 _ NUM_ENTITIES _ (by decide)]
  rw [mapSeedVal_odSet_ne s2 _ NUM_RELATIONS _ (by decide)]
  exact mapSeedVal_odSet_seed s2 _ (Val.num ri.seed)

theorem trialStep_seedRel {M : Type} (ri ri2 : RunInputs M) (s2 : Nat)
    (hhp : ri2.hyperparams_dict = ri.hyperparams_dict)
    (hstream : ri2.stream = ri.stream)
    (hent : ri2.entity_to_id = ri.entity_to_id)
    (hrel : ri2.rel_to_id = ri.rel_to_id)
    (hseed : ri2.seed = s2)
    (tag : SamplerTag) (a b : LoopState M)
    (hpos : b.pos = a.pos) (hcfg : b.config = mapSeedVal s2 a.config)
    (hsnap : b.modelsParamsSnap = a.modelsParamsSnap.map (mapSeedVal s2)) :
    (trialStep ri2 tag b (generalConfig ri2 b)).pos =
      (trialStep ri tag a (generalConfig ri a)).pos ∧
    (trialStep ri2 tag b (generalConfig ri2 b)).config =
      mapSeedVal s2 (trialStep ri tag a (generalConfig ri a)).config ∧
    (trialStep ri2 tag b (generalConfig ri2 b)).modelsParamsSnap =
      (trialStep ri tag a (generalConfig ri a)).modelsParamsSnap.map (mapSeedVal s2) := by
  have hg := generalConfig_seedRel ri ri2 s2 hhp hstream hent hrel hseed a b hpos hcfg
  have hc : trialConfig ri2 tag b (generalConfig ri2 b) =
      mapSeedVal s2 (trialConfig ri tag a (generalConfig ri a)) := by
    show odUpdate (generalConfig ri2 b)
        (runSampler tag ri2.hyperparams_dict ri2.stream (b.pos + 4)).1 =
      mapSeedVal s2 (odUpdate (generalConfig ri a)
        (runSampler tag ri.hyperparams_dict ri.stream (a.pos + 4)).1)
    rw [hg, hhp, hstream, hpos]
    exact mapSeedVal_odUpdate s2 _ (generalConfig ri a)
      (sampler_keys_ne_seed tag ri.hyperparams_dict ri.stream (a.pos + 4))
  refine ⟨?_, hc, ?_⟩
  · show (runSampler tag ri2.hyperparams_dict ri2.stream (b.pos + 4)).2 =
      (runSampler tag ri.hyperparams_dict ri.stream (a.pos + 4)).2
    rw [hhp, hstream, hpos]
  · show b.modelsParamsSnap ++ [trialConfig ri2 tag b (generalConfig ri2 b)] =
      List.map (mapSeedVal s2)
        (a.modelsParamsSnap ++ [trialConfig ri tag a (generalConfig ri a)])
    rw [List.map_append, hsnap, hc]
    rfl

theorem runTrials_seedRel {M : Type} (ri ri2 : RunInputs M) (s2 : Nat)
    (hhp : ri2.hyperparams_dict = ri.hyperparams_dict)
    (hstream : ri2.stream = ri.stream)
    (hent : ri2.entity_to_id = ri.entity_to_id)
    (hrel : ri2.rel_to_id = ri.rel_to_id)
    (hseed : ri2.seed = s2) :
    ∀ (n : Nat) (a b sta stb : LoopState M),
      runTrials ri n a = Except.ok sta → runTrials ri2 n b = Except.ok stb →
      b.pos = a.pos → b.config = mapSeedVal s2 a.config →
      b.modelsParamsSnap = a.modelsParamsSnap.map (mapSeedVal s2) →
      stb.pos = sta.pos ∧ stb.config = mapSeedVal s2 sta.config ∧
        stb.modelsParamsSnap = sta.modelsParamsSnap.map (mapSeedVal s2) := by
  intro n
  induction n with
  | zero =>
    intro a b sta stb ha hb hpos hcfg hsnap
    have ha2 : a = sta := by simpa [runTrials] using ha
    have hb2 : b = stb := by simpa [runTrials] using hb
    subst ha2
    subst hb2
    exact ⟨hpos, hcfg, hsnap⟩
  | succ n ih =>
    intro a b sta stb ha hb hpos hcfg hsnap
    cases htag : selectSampler (getVal ri.hyperparams_dict KG_EMBEDDING_MODEL) with
    | none => simp [runTrials, runTrial, htag] at ha
    | some tag =>
      have htag2 : selectSampler (getVal ri2.hyperparams_dict KG_EMBEDDING_MODEL) =
          some tag := by
        rw [hhp]
        exact htag
      simp only [runTrials, runTrial, htag] at ha
      simp only [runTrials, runTrial, htag2] at hb
      obtain ⟨hp2, hc2, hs2⟩ :=
        trialStep_seedRel ri ri2 s2 hhp hstream hent hrel hseed tag a b hpos hcfg hsnap
      exact ih _ _ sta stb ha hb hp2 hc2 hs2

/-- Every snapshot taken during a run records the seed argument of that run
under the seed key. -/
theorem runTrials_snap_seed {M : Type} (ri : RunInputs M) :
    ∀ (n : Nat) (st0 st : LoopState M), runTrials ri n st0 = Except.ok st →
      (∀ d ∈ st0.modelsParamsSnap, dget d SEED = some (Val.num ri.seed)) →
      ∀ d ∈ st.modelsParamsSnap, dget d SEED = some (Val.num ri.seed) := by
  intro n
  induction n with
  | zero =>
    intro st0 st hrun h0
    have heq : st0 = st := by simpa [runTrials] using hrun
    exact heq ▸ h0
  | succ n ih =>
    intro st0 st hrun h0
    cases htag : selectSampler (getVal ri.hyperparams_dict KG_EMBEDDING_MODEL) with
    | none => simp [runTrials, runTrial, htag] at hrun
    | some tag =>
      simp only [runTrials, runTrial, htag] at hrun
      refine ih _ st hrun ?_
      intro d hd
      have hform : (trialStep ri tag st0 (generalConfig ri st0)).modelsParamsSnap =
          st0.modelsParamsSnap ++ [trialConfig ri tag st0 (generalConfig ri st0)] := rfl
      rw [hform] at hd
      rcases List.mem_append.mp hd with h1 | h1
      · exact h0 d h1
      · simp at h1
        rw [h1]
        show dget (odUpdate (generalConfig ri st0)
          (runSampler tag ri.hyperparams_dict ri.stream (st0.pos + 4)).1) SEED = _
        rw [dget_odUpdate_ne _ (generalConfig ri st0) SEED
          (sampler_keys_ne_seed tag ri.hyperparams_dict ri.stream (st0.pos + 4))]
        exact dget_odSet_self _ SEED (Val.num ri.seed)

/-- C9: the seed argument does not influence which hyperparameter values are
sampled.  Seeding touches only the numpy generator while every candidate
choice is drawn from the separate process-wide stream, so two runs with
different seed arguments but the same stream record snapshot sequences that
are identical after erasing the seed entry (in particular the same positions
are consumed from the stream), and the seed appears only as the SEED entry of
each recorded configuration (and as the value forwarded to the trainer). -/
theorem seed_independent_sampling {M : Type} (ri : RunInputs M) (s2 : Nat) (n : Nat)
    (sta stb : LoopState M)
    (ha : runTrials ri n (initialState ri) = Except.ok sta)
    (hb : runTrials {ri with seed := s2} n (initialState {ri with seed := s2}) =
      Except.ok stb) :
    stb.pos = sta.pos ∧
    stb.modelsParamsSnap = sta.modelsParamsSnap.map (mapSeedVal s2) ∧
    stb.modelsParamsSnap.map eraseSeed = sta.modelsParamsSnap.map eraseSeed ∧
    (∀ d ∈ sta.modelsParamsSnap, dget d SEED = some (Val.num ri.seed)) ∧
    (∀ d ∈ stb.modelsParamsSnap, dget d SEED = some (Val.num s2)) := by
  have hinit_cfg : (initialState {ri with seed := s2} : LoopState M).config =
      mapSeedVal s2 (initialState ri).config := rfl
  obtain ⟨hp2, hc2, hs2⟩ := runTrials_seedRel ri {ri with seed := s2} s2 rfl rfl rfl rfl rfl
    n (initialState ri) (initialState {ri with seed := s2}) sta stb ha hb rfl hinit_cfg rfl
  refine ⟨hp2, hs2, ?_, ?_, ?_⟩
  · rw [hs2, List.map_map]
    have hfun : eraseSeed ∘ mapSeedVal s2 = eraseSeed := funext (eraseSeed_mapSeedVal s2)
    rw [hfun]
  · refine runTrials_snap_seed ri n (initialState ri) sta ha ?_
    intro d hd
    simp [initialState] at hd
  · refine runTrials_snap_seed {ri with seed := s2} n (initialState {ri with seed := s2})
      stb hb ?_
    intro d hd
    simp [initialState] at hd

/-- The final state of the concrete sample run re-run with seed 7. -/
def seed7State : LoopState Nat :=
  match runTrials { sampleRun with seed := 7 } (maxIters sampleRun)
      (initialState { sampleRun with seed := 7 }) with
  | Except.ok st => st
  | Except.error _ => initialState { sampleRun with seed := 7 }

/-- Witness for C9: the concrete run with seed 42 and the same run with seed 7
sample identical configurations apart from the recorded seed entry. -/
theorem seed_independent_sampling_witness :
    seed7State.pos = sampleRunState.pos ∧
    seed7State.modelsParamsSnap = sampleRunState.modelsParamsSnap.map (mapSeedVal 7) ∧
    seed7State.modelsParamsSnap.map eraseSeed =
      sampleRunState.modelsParamsSnap.map eraseSeed ∧
    (∀ d ∈ sampleRunState.modelsParamsSnap, dget d SEED = some (Val.num sampleRun.seed)) ∧
    (∀ d ∈ seed7State.modelsParamsSnap, dget d SEED = some (Val.num 7)) :=
  seed_independent_sampling sampleRun 7 2 sampleRunState seed7State rfl rfl

end Pykeen
